import Mathlib

/-!
Verification development for the Analyzr repository (`src/main.rs`):
a cyclomatic-complexity analyzer for Python source trees.

The external grammar engine (tree-sitter) is, per the specification,
a black box exposing `parse(text) -> tree` and
`query(node, pattern) -> matches in traversal order`.  We therefore
embed the program from the parsed-tree level: a syntax tree is a
`Node` (kind, text, 0-based start row, children), and a pattern query
over a subtree is the pre-order list of nodes whose kind matches the
pattern, mirroring tree-sitter's capture semantics for the two fixed
queries the program issues.
-/

set_option maxHeartbeats 1000000

mutual

inductive Node : Type where
  | mk (kind : String) (text : String) (startRow : Nat) (children : NodeList)

inductive NodeList : Type where
  | nil : NodeList
  | cons (head : Node) (tail : NodeList) : NodeList

end

def Node.kind : Node → String
  | .mk k _ _ _ => k

def Node.text : Node → String
  | .mk _ t _ _ => t

def Node.startRow : Node → Nat
  | .mk _ _ r _ => r

def Node.children : Node → NodeList
  | .mk _ _ _ cs => cs

mutual

/-- Pre-order list of a node and all of its descendants: the scope of a
tree-sitter query rooted at that node. -/
def allNodes : Node → List Node
  | .mk k t r cs => .mk k t r cs :: allNodesL cs

def allNodesL : NodeList → List Node
  | .nil => []
  | .cons c cs => allNodes c ++ allNodesL cs

end

/-- The decision-point node kinds of the control-flow query in
`calculate_complexity` (main.rs lines 77-87). -/
def decisionKinds : List String :=
  ["if_statement", "elif_clause", "for_statement", "while_statement",
   "try_statement", "except_clause", "with_statement", "boolean_operator"]

def isDecisionKind (k : String) : Bool :=
  decisionKinds.contains k

/-- The matches of the control-flow query over the body subtree
(`control_cursor.matches(&control_flow_query, body_node, ...)`):
every node of the subtree whose kind is a decision-point kind,
in traversal order. -/
def controlMatches (body : Node) : List Node :=
  (allNodes body).filter (fun n => isDecisionKind n.kind)

/-- First child of the given kind, used to resolve the `name:` and
`body:` captures of the function-definition query. -/
def findKind (k : String) : NodeList → Option Node
  | .nil => none
  | .cons c cs => if c.kind = k then some c else findKind k cs

structure FunctionComplexity where
  name : String
  file : String
  line : Nat
  complexity : Nat
deriving Repr, DecidableEq

/-- One match of the function-definition query
`(function_definition name: (identifier) @name body: (block) @body)`
turned into a record, complexity computed as in main.rs lines 75-101:
base 1, then `complexity += 1` per control-flow match. -/
def functionRecord (fn : Node) : Option FunctionComplexity :=
  if fn.kind = "function_definition" then
    match findKind "identifier" fn.children, findKind "block" fn.children with
    | some nameN, some bodyN =>
        some { name := nameN.text
             , file := ""
             , line := fn.startRow + 1
             , complexity := (controlMatches bodyN).foldl (fun c _ => c + 1) 1 }
    | _, _ => none
  else none

/-- `calculate_complexity` (main.rs lines 51-105), from the parsed tree:
run the function-definition query over the whole tree and emit one
record per match. -/
def calculate_complexity (tree : Node) : List FunctionComplexity :=
  (allNodes tree).filterMap functionRecord

/-! ## Directory aggregation (`analyze_directory`, main.rs lines 107-154) -/

structure Summary where
  mean_complexity : Rat
  max_complexity : Nat
  total_functions : Nat
  functions_above_threshold : Nat
deriving Repr, DecidableEq

structure AnalysisResult where
  functions : List FunctionComplexity
  summary : Option Summary
deriving Repr, DecidableEq

/-- One item yielded by the `WalkDir` iterator: either a traversal
error (`Err`, dropped by `filter_map(|e| e.ok())`) or an entry with a
path, whose read-and-parse outcome (`read_to_string` then
`calculate_complexity`) is the `content`. -/
inductive WalkItem : Type where
  | err : WalkItem
  | ok (path : String) (content : Except String Node) : WalkItem

def startsWithChars : List Char → List Char → Bool
  | [], _ => true
  | _ :: _, [] => false
  | a :: as, b :: bs => a = b && startsWithChars as bs

def containsChars (pat : List Char) : List Char → Bool
  | [] => startsWithChars pat []
  | b :: bs => startsWithChars pat (b :: bs) || containsChars pat bs

/-- `str::contains(pattern)`: the pattern occurs as a contiguous
substring. -/
def substrContains (s pat : String) : Bool :=
  containsChars pat.toList s.toList

def splitOnChar (c : Char) : List Char → List (List Char)
  | [] => [[]]
  | a :: as =>
      match splitOnChar c as with
      | [] => if a = c then [[], []] else [[a]]
      | g :: gs => if a = c then [] :: g :: gs else (a :: g) :: gs

/-- Last `/`-separated segment of a path: `Path::file_name`. -/
def fileName (p : String) : List Char :=
  (splitOnChar '/' p.toList).getLastD []

/-- `Path::extension`: portion of the file name after the last dot;
none when there is no dot, or when the only dot is a leading one. -/
def extension (p : String) : Option String :=
  match splitOnChar '.' (fileName p) with
  | [] => none
  | [_] => none
  | [] :: [_] => none
  | _ :: rest => (rest.getLast?).map (fun cs => String.mk cs)

/-- The skip test of main.rs lines 118-122: the lossy path contains
`__pycache__` or `venv` as a substring. -/
def excludedPath (p : String) : Bool :=
  substrContains p "__pycache__" || substrContains p "venv"

/-- Running state of the walk loop: collected records, running total
complexity, running max complexity. -/
structure WalkState where
  all : List FunctionComplexity
  total : Nat
  maxc : Nat
deriving Repr, DecidableEq

/-- The records of one file with `func.file` stamped with its path
(main.rs lines 127-128). -/
def stampedRecords (path : String) (tree : Node) : List FunctionComplexity :=
  (calculate_complexity tree).map (fun f => { f with file := path })

/-- Body of the per-file section of the loop (main.rs lines 124-133):
stamp the file path on every record, fold complexities into the
running total and max, extend the collection. -/
def stepFile (st : WalkState) (path : String) (tree : Node) : WalkState :=
  { all := st.all ++ stampedRecords path tree
  , total := st.total + ((stampedRecords path tree).map (fun f => f.complexity)).sum
  , maxc := ((stampedRecords path tree).map (fun f => f.complexity)).foldl Nat.max st.maxc }

/-- One iteration of the walk loop: `Err` entries were dropped by
`filter_map`, non-`.py` extensions by the `filter`, excluded paths by
`continue`; a read/parse failure propagates via `?`. -/
def processItem (st : WalkState) : WalkItem → Except String WalkState
  | .err => .ok st
  | .ok p c =>
      if extension p = some "py" then
        if excludedPath p then .ok st
        else
          match c with
          | .error e => .error e
          | .ok tree => .ok (stepFile st p tree)
      else .ok st

def runWalk (st : WalkState) : List WalkItem → Except String WalkState
  | [] => .ok st
  | i :: is =>
      match processItem st i with
      | .error e => .error e
      | .ok st1 => runWalk st1 is

/-- `analyze_directory` (main.rs lines 107-154): run the walk loop from
the empty state, then build the summary when the collection is
non-empty.  `mean_complexity` is `total_complexity as f64 / len as
f64`, embedded as exact rational division. -/
def analyze_directory (items : List WalkItem) (threshold : Nat) :
    Except String AnalysisResult :=
  match runWalk ⟨[], 0, 0⟩ items with
  | .error e => .error e
  | .ok st =>
      let summary : Option Summary :=
        if st.all.isEmpty then none
        else some
          { mean_complexity := (st.total : Rat) / (st.all.length : Rat)
          , max_complexity := st.maxc
          , total_functions := st.all.length
          , functions_above_threshold :=
              (st.all.filter (fun f => threshold < f.complexity)).length }
      .ok { functions := st.all, summary := summary }

/-! ## `main` (main.rs lines 320-331) -/

/-- `main`: analyze, then dispatch on the output selector; any value
other than `table` or `json` hits `anyhow::bail!`. -/
def mainRun (items : List WalkItem) (threshold : Nat) (output : String) :
    Except String AnalysisResult :=
  match analyze_directory items threshold with
  | .error e => .error e
  | .ok result =>
      if output = "table" then .ok result
      else if output = "json" then .ok result
      else .error "Invalid output format"

/-- Process exit status: `Ok(())` from `main` exits zero, a propagated
`Err` exits non-zero. -/
def exitCode (r : Except String AnalysisResult) : Nat :=
  match r with
  | .ok _ => 0
  | .error _ => 1

/-! ## Concrete trees used to exercise the definitions -/

deriving instance DecidableEq for Node

def ndN (k : String) (cs : List Node) : Node :=
  Node.mk k "" 0 (cs.foldr (fun c acc => NodeList.cons c acc) NodeList.nil)

def identN (s : String) : Node :=
  Node.mk "identifier" s 0 NodeList.nil

/-- Tree of `def f():\n    return True`. -/
def simpleTree : Node :=
  ndN "module" [Node.mk "function_definition" "" 1
    (NodeList.cons (identN "f")
      (NodeList.cons (ndN "block" [ndN "return_statement" []]) NodeList.nil))]

/-- Body of the `complex_function` of the repository's unit test:
if / for / while / try / with / if / and / except, eight decision
points in all. -/
def complexBody : Node :=
  ndN "block" [ndN "if_statement" [ndN "block" [ndN "for_statement" [ndN "block" [
    ndN "while_statement" [ndN "block" [ndN "try_statement" [
      ndN "block" [ndN "with_statement" [ndN "block" [ndN "if_statement" [
        ndN "boolean_operator" [], ndN "block" [ndN "pass_statement" []]]]]],
      ndN "except_clause" [ndN "block" [ndN "pass_statement" []]]]]]]]]]]

def complexTree : Node :=
  ndN "module" [Node.mk "function_definition" "" 4
    (NodeList.cons (identN "complex_function")
      (NodeList.cons complexBody NodeList.nil))]

/-- An `if` statement used inside a nested function body. -/
def innerIf : Node :=
  ndN "if_statement" [ndN "block" [ndN "pass_statement" []]]

/-- Body of the nested function: a block holding one `if`. -/
def innerBody : Node :=
  ndN "block" [innerIf]

/-- A nested function definition whose body holds one `if`. -/
def innerDef : Node :=
  Node.mk "function_definition" "" 2
    (NodeList.cons (identN "inner") (NodeList.cons innerBody NodeList.nil))

/-- Body of the outer function: a block holding only `innerDef`. -/
def outerFnBody : Node :=
  ndN "block" [innerDef]

/-- An outer function whose body holds only `innerDef`. -/
def outerTree : Node :=
  ndN "module" [Node.mk "function_definition" "" 1
    (NodeList.cons (identN "outer")
      (NodeList.cons outerFnBody NodeList.nil))]

/-! ## Helper lemmas -/

theorem foldl_succ_eq_add {α : Type} (l : List α) (c : Nat) :
    l.foldl (fun c _ => c + 1) c = c + l.length := by
  induction l generalizing c with
  | nil => simp
  | cons a l ih => simp [List.foldl, ih]; omega

theorem controlMatches_length (b : Node) :
    (controlMatches b).length = (allNodes b).countP (fun n => isDecisionKind n.kind) := by
  rw [controlMatches, List.countP_eq_length_filter]

theorem functionRecord_eq (fn : Node) (f : FunctionComplexity)
    (h : functionRecord fn = some f) :
    fn.kind = "function_definition" ∧
    ∃ nameN bodyN, findKind "identifier" fn.children = some nameN ∧
      findKind "block" fn.children = some bodyN ∧
      f = ⟨nameN.text, "", fn.startRow + 1,
        (controlMatches bodyN).foldl (fun c _ => c + 1) 1⟩ := by
  unfold functionRecord at h
  split at h
  · rename_i hk
    split at h
    · rename_i nameN bodyN hn hb
      exact ⟨hk, nameN, bodyN, hn, hb, (Option.some.injEq _ _ ▸ h).symm⟩
    · exact absurd h (by simp)
  · exact absurd h (by simp)

/-! ## C1 -/

/-- C1: every record emitted by `calculate_complexity` has complexity
equal to 1 (the base score) plus the number of decision-point nodes in
the matched function's body subtree, one per occurrence regardless of
nesting; in particular, a body with no decision-point node yields
complexity exactly 1. -/
theorem complexity_one_plus_count (tree : Node) (f : FunctionComplexity)
    (hf : f ∈ calculate_complexity tree) :
    ∃ fn ∈ allNodes tree, fn.kind = "function_definition" ∧
      ∃ nameN bodyN, findKind "identifier" fn.children = some nameN ∧
        findKind "block" fn.children = some bodyN ∧
        f.name = nameN.text ∧ f.line = fn.startRow + 1 ∧
        f.complexity = 1 + (allNodes bodyN).countP (fun n => isDecisionKind n.kind) ∧
        ((allNodes bodyN).countP (fun n => isDecisionKind n.kind) = 0 →
          f.complexity = 1) := by
  obtain ⟨fn, hmem, hrec⟩ := List.mem_filterMap.mp hf
  obtain ⟨hk, nameN, bodyN, hn, hb, hfeq⟩ := functionRecord_eq fn f hrec
  refine ⟨fn, hmem, hk, nameN, bodyN, hn, hb, ?_, ?_, ?_, ?_⟩
  · rw [hfeq]
  · rw [hfeq]
  · rw [hfeq]
    show (controlMatches bodyN).foldl (fun c _ => c + 1) 1 = _
    rw [foldl_succ_eq_add, controlMatches_length, Nat.add_comm]
  · intro h0
    rw [hfeq]
    show (controlMatches bodyN).foldl (fun c _ => c + 1) 1 = 1
    rw [foldl_succ_eq_add, controlMatches_length, h0]

/-- Witness for C1 at the unit test's `complex_function` tree: the
emitted record and the instantiated theorem. -/
theorem complexity_one_plus_count_witness :
    ({ name := "complex_function", file := "", line := 5, complexity := 9 } :
        FunctionComplexity) ∈ calculate_complexity complexTree ∧
    (∃ fn ∈ allNodes complexTree, fn.kind = "function_definition" ∧
      ∃ nameN bodyN, findKind "identifier" fn.children = some nameN ∧
        findKind "block" fn.children = some bodyN ∧
        ({ name := "complex_function", file := "", line := 5, complexity := 9 } :
            FunctionComplexity).name = nameN.text ∧
        ({ name := "complex_function", file := "", line := 5, complexity := 9 } :
            FunctionComplexity).line = fn.startRow + 1 ∧
        ({ name := "complex_function", file := "", line := 5, complexity := 9 } :
            FunctionComplexity).complexity =
          1 + (allNodes bodyN).countP (fun n => isDecisionKind n.kind) ∧
        ((allNodes bodyN).countP (fun n => isDecisionKind n.kind) = 0 →
          ({ name := "complex_function", file := "", line := 5, complexity := 9 } :
              FunctionComplexity).complexity = 1)) := by
  have hmem : ({ name := "complex_function", file := "", line := 5, complexity := 9 } :
      FunctionComplexity) ∈ calculate_complexity complexTree := by
    have hcalc : calculate_complexity complexTree =
        [{ name := "complex_function", file := "", line := 5, complexity := 9 }] := rfl
    rw [hcalc]
    exact List.mem_singleton.mpr rfl
  exact ⟨hmem, complexity_one_plus_count complexTree _ hmem⟩

/-! ## Subtree membership lemmas -/

theorem self_mem_allNodes (n : Node) : n ∈ allNodes n := by
  cases n with
  | mk k t r cs => exact List.mem_cons_self _ _

mutual

theorem mem_allNodes_trans (n : Node) (c m : Node)
    (hc : c ∈ allNodes n) (hm : m ∈ allNodes c) : m ∈ allNodes n :=
  match n with
  | .mk k t r cs => by
      rcases List.mem_cons.mp hc with h | h
      · subst h; exact hm
      · exact List.mem_cons.mpr (Or.inr (mem_allNodesL_trans cs c m h hm))

theorem mem_allNodesL_trans (l : NodeList) (c m : Node)
    (hc : c ∈ allNodesL l) (hm : m ∈ allNodes c) : m ∈ allNodesL l :=
  match l with
  | .nil => by simp [allNodesL] at hc
  | .cons x xs => by
      rcases List.mem_append.mp hc with h | h
      · exact List.mem_append.mpr (Or.inl (mem_allNodes_trans x c m h hm))
      · exact List.mem_append.mpr (Or.inr (mem_allNodesL_trans xs c m h hm))

end

theorem findKind_mem_allNodesL (k : String) :
    (l : NodeList) → (n : Node) → findKind k l = some n → n ∈ allNodesL l
  | .nil, n, h => by simp [findKind] at h
  | .cons c cs, n, h => by
      unfold findKind at h
      split at h
      · cases h
        exact List.mem_append.mpr (Or.inl (self_mem_allNodes c))
      · exact List.mem_append.mpr (Or.inr (findKind_mem_allNodesL k cs n h))

theorem mem_children_allNodes (n m : Node) (h : m ∈ allNodesL n.children) :
    m ∈ allNodes n := by
  cases n with
  | mk k t r cs => exact List.mem_cons.mpr (Or.inr h)

/-! ## C2 -/

/-- C2: the control-flow query scans the whole body subtree
inclusively: a decision-point node located anywhere inside a nested
function definition that is structurally contained in the body is
still among the counted matches — no exclusion of inner-function
bodies is performed. -/
theorem inclusive_body_scan (body fd d : Node)
    (hfd : fd ∈ allNodes body) (hkind : fd.kind = "function_definition")
    (hd : d ∈ allNodes fd) (hdec : isDecisionKind d.kind = true) :
    d ∈ controlMatches body :=
  List.mem_filter.mpr ⟨mem_allNodes_trans body fd d hfd hd, hdec⟩

/-- Witness for C2: the `if` inside `innerDef` is among the control
matches of the enclosing function's body. -/
theorem inclusive_body_scan_witness :
    innerDef ∈ allNodes outerFnBody ∧ innerDef.kind = "function_definition" ∧
    innerIf ∈ allNodes innerDef ∧ isDecisionKind innerIf.kind = true ∧
    innerIf ∈ controlMatches outerFnBody := by
  have h1 : innerDef ∈ allNodes outerFnBody := by decide
  have h2 : innerIf ∈ allNodes innerDef := by decide
  exact ⟨h1, rfl, h2, rfl, inclusive_body_scan outerFnBody innerDef innerIf h1 rfl h2 rfl⟩

/-! ## C9 -/

/-- C9 (implicit): the function-definition query matches at every
depth, so a nested function definition yields its own record with its
own base-1 count over its own body; and a decision point inside that
nested body is also among the control matches of any enclosing body
that structurally contains the nested definition. -/
theorem nested_defs_have_records (tree fd nameN bodyN : Node)
    (hmem : fd ∈ allNodes tree)
    (hkind : fd.kind = "function_definition")
    (hname : findKind "identifier" fd.children = some nameN)
    (hbody : findKind "block" fd.children = some bodyN) :
    ({ name := nameN.text, file := "", line := fd.startRow + 1,
       complexity := 1 + (allNodes bodyN).countP (fun n => isDecisionKind n.kind) } :
        FunctionComplexity) ∈ calculate_complexity tree ∧
    ∀ outer d, fd ∈ allNodes outer → d ∈ allNodes bodyN →
      isDecisionKind d.kind = true → d ∈ controlMatches outer := by
  constructor
  · apply List.mem_filterMap.mpr
    refine ⟨fd, hmem, ?_⟩
    have hc : (controlMatches bodyN).foldl (fun c _ => c + 1) 1 =
        1 + (allNodes bodyN).countP (fun n => isDecisionKind n.kind) := by
      rw [foldl_succ_eq_add, controlMatches_length, Nat.add_comm]
    unfold functionRecord
    rw [if_pos hkind, hname, hbody]
    exact congrArg some (by rw [← hc])
  · intro outer d houter hd hdec
    have hbn : bodyN ∈ allNodes fd :=
      mem_children_allNodes fd bodyN (findKind_mem_allNodesL "block" fd.children bodyN hbody)
    exact List.mem_filter.mpr
      ⟨mem_allNodes_trans outer fd d houter (mem_allNodes_trans fd bodyN d hbn hd), hdec⟩

/-- Witness for C9: `innerDef`, nested inside the outer function of
`outerTree`, yields its own record, and its `if` is also counted for
the enclosing body. -/
theorem nested_defs_have_records_witness :
    innerDef ∈ allNodes outerTree ∧
    ({ name := "inner", file := "", line := 3, complexity := 2 } : FunctionComplexity)
        ∈ calculate_complexity outerTree ∧
    innerIf ∈ controlMatches outerFnBody := by
  have hmem : innerDef ∈ allNodes outerTree := by decide
  have h := nested_defs_have_records outerTree innerDef (identN "inner") innerBody
    hmem rfl (by decide) (by decide)
  exact ⟨hmem, h.1, h.2 outerFnBody innerIf (by decide) (by decide) rfl⟩

/-! ## Walk-loop lemmas -/

theorem calc_complexity_ge_one (tree : Node) (f : FunctionComplexity)
    (hf : f ∈ calculate_complexity tree) : 1 ≤ f.complexity := by
  obtain ⟨fn, _, hrec⟩ := List.mem_filterMap.mp hf
  obtain ⟨_, nameN, bodyN, _, _, hfeq⟩ := functionRecord_eq fn f hrec
  rw [hfeq]
  show 1 ≤ (controlMatches bodyN).foldl (fun c _ => c + 1) 1
  rw [foldl_succ_eq_add]
  omega

theorem le_foldl_max (l : List Nat) (a : Nat) : a ≤ l.foldl Nat.max a := by
  induction l generalizing a with
  | nil => simp
  | cons x l ih => exact le_trans (Nat.le_max_left a x) (ih (Nat.max a x))

theorem mem_le_foldl_max (l : List Nat) (a x : Nat) (hx : x ∈ l) :
    x ≤ l.foldl Nat.max a := by
  induction l generalizing a with
  | nil => simp at hx
  | cons y l ih =>
      rcases List.mem_cons.mp hx with h | h
      · subst h
        exact le_trans (Nat.le_max_right a x) (le_foldl_max l (Nat.max a x))
      · exact ih (Nat.max a y) h

theorem foldl_max_eq_or_mem (l : List Nat) (a : Nat) :
    l.foldl Nat.max a = a ∨ l.foldl Nat.max a ∈ l := by
  induction l generalizing a with
  | nil => exact Or.inl rfl
  | cons x l ih =>
      rcases ih (Nat.max a x) with h | h
      · by_cases hax : a ≤ x
        · refine Or.inr ?_
          have hmx : Nat.max a x = x := Nat.max_eq_right hax
          rw [List.foldl_cons, h, hmx]
          exact List.mem_cons_self _ _
        · refine Or.inl ?_
          have hmx : Nat.max a x = a := Nat.max_eq_left (Nat.le_of_not_le hax)
          rw [List.foldl_cons, h, hmx]
      · exact Or.inr (List.mem_cons.mpr (Or.inr h))

theorem processItem_err_item (st : WalkState) : processItem st .err = .ok st := rfl

theorem processItem_skip_ext (st : WalkState) (p : String) (c : Except String Node)
    (h : ¬ extension p = some "py") : processItem st (.ok p c) = .ok st := by
  simp [processItem, h]

theorem processItem_skip_excl (st : WalkState) (p : String) (c : Except String Node)
    (h1 : extension p = some "py") (h2 : excludedPath p = true) :
    processItem st (.ok p c) = .ok st := by
  simp [processItem, h1, h2]

theorem processItem_read_error (st : WalkState) (p e : String)
    (h1 : extension p = some "py") (h2 : excludedPath p = false) :
    processItem st (.ok p (.error e)) = .error e := by
  simp [processItem, h1, h2]

theorem processItem_file (st : WalkState) (p : String) (tree : Node)
    (h1 : extension p = some "py") (h2 : excludedPath p = false) :
    processItem st (.ok p (.ok tree)) = .ok (stepFile st p tree) := by
  simp [processItem, h1, h2]

/-- The loop invariant tying the running accumulators to the collected
records. -/
def WalkInv (st : WalkState) : Prop :=
  st.total = (st.all.map (fun f => f.complexity)).sum ∧
  st.maxc = (st.all.map (fun f => f.complexity)).foldl Nat.max 0 ∧
  ∀ f ∈ st.all, 1 ≤ f.complexity

theorem stepFile_inv (st : WalkState) (p : String) (tree : Node)
    (h : WalkInv st) : WalkInv (stepFile st p tree) := by
  obtain ⟨ht, hm, hge⟩ := h
  refine ⟨?_, ?_, ?_⟩
  · show st.total + _ = ((st.all ++ stampedRecords p tree).map (fun f => f.complexity)).sum
    rw [ht, List.map_append, List.sum_append]
  · show _ = ((st.all ++ stampedRecords p tree).map (fun f => f.complexity)).foldl Nat.max 0
    rw [List.map_append, List.foldl_append, ← hm]
    rfl
  · intro f hf
    rcases List.mem_append.mp hf with hf | hf
    · exact hge f hf
    · obtain ⟨g, hg, hgf⟩ := List.mem_map.mp hf
      have := calc_complexity_ge_one tree g hg
      rw [← hgf]
      exact this

theorem processItem_inv (st st1 : WalkState) (i : WalkItem)
    (h : WalkInv st) (hp : processItem st i = .ok st1) : WalkInv st1 := by
  cases i with
  | err => cases hp; exact h
  | ok p c =>
      by_cases hext : extension p = some "py"
      · by_cases hexc : excludedPath p = true
        · rw [processItem_skip_excl st p c hext hexc] at hp
          cases hp; exact h
        · have hexc2 : excludedPath p = false := by
            cases hb : excludedPath p
            · rfl
            · exact absurd hb hexc
          cases c with
          | error e =>
              rw [processItem_read_error st p e hext hexc2] at hp
              cases hp
          | ok tree =>
              rw [processItem_file st p tree hext hexc2] at hp
              cases hp
              exact stepFile_inv st p tree h
      · rw [processItem_skip_ext st p c hext] at hp
        cases hp; exact h

theorem runWalk_cons (st : WalkState) (i : WalkItem) (is : List WalkItem) :
    runWalk st (i :: is) =
      match processItem st i with
      | .error e => .error e
      | .ok st1 => runWalk st1 is := rfl

theorem runWalk_inv (items : List WalkItem) (st st1 : WalkState)
    (h : WalkInv st) (hr : runWalk st items = .ok st1) : WalkInv st1 := by
  induction items generalizing st with
  | nil => cases hr; exact h
  | cons i is ih =>
      rw [runWalk_cons] at hr
      cases hpi : processItem st i with
      | error e => rw [hpi] at hr; cases hr
      | ok st2 =>
          rw [hpi] at hr
          exact ih st2 (processItem_inv st st2 i h hpi) hr

theorem runWalk_append (st : WalkState) (l1 l2 : List WalkItem) :
    runWalk st (l1 ++ l2) =
      match runWalk st l1 with
      | .error e => .error e
      | .ok st1 => runWalk st1 l2 := by
  induction l1 generalizing st with
  | nil => rfl
  | cons i is ih =>
      rw [List.cons_append, runWalk_cons, runWalk_cons]
      cases processItem st i with
      | error e => rfl
      | ok st1 => exact ih st1

theorem init_inv : WalkInv ⟨[], 0, 0⟩ :=
  ⟨rfl, rfl, by intro f hf; simp at hf⟩

theorem analyze_ok_elim (items : List WalkItem) (t : Nat) (r : AnalysisResult)
    (h : analyze_directory items t = .ok r) :
    ∃ st, runWalk ⟨[], 0, 0⟩ items = .ok st ∧ r.functions = st.all ∧
      r.summary = (if st.all.isEmpty then none else some
        { mean_complexity := (st.total : Rat) / (st.all.length : Rat)
        , max_complexity := st.maxc
        , total_functions := st.all.length
        , functions_above_threshold :=
            (st.all.filter (fun f => t < f.complexity)).length }) := by
  unfold analyze_directory at h
  cases hr : runWalk ⟨[], 0, 0⟩ items with
  | error e => rw [hr] at h; cases h
  | ok st =>
      rw [hr] at h
      cases h
      exact ⟨st, rfl, rfl, rfl⟩

theorem analyze_congr (items1 items2 : List WalkItem) (t : Nat)
    (h : runWalk ⟨[], 0, 0⟩ items1 = runWalk ⟨[], 0, 0⟩ items2) :
    analyze_directory items1 t = analyze_directory items2 t := by
  unfold analyze_directory
  rw [h]

/-! ## Shared concrete run -/

/-- A concrete run: one simple file and one complex file. -/
def exItems : List WalkItem :=
  [WalkItem.ok "d/simple.py" (Except.ok simpleTree),
   WalkItem.ok "d/complex.py" (Except.ok complexTree)]

def exFunctions : List FunctionComplexity :=
  [{ name := "f", file := "d/simple.py", line := 2, complexity := 1 },
   { name := "complex_function", file := "d/complex.py", line := 5, complexity := 9 }]

def exResult : AnalysisResult :=
  { functions := exFunctions
  , summary := some
      { mean_complexity := ((10 : Nat) : Rat) / ((2 : Nat) : Rat)
      , max_complexity := 9
      , total_functions := 2
      , functions_above_threshold := 1 } }

theorem exResult_eq : analyze_directory exItems 5 = .ok exResult := rfl

/-! ## C4 -/

/-- C4: every record produced by the analyzer has complexity at least
1, and the floor is preserved through aggregation: every record in a
successful `analyze_directory` result has complexity at least 1. -/
theorem all_records_ge_one :
    (∀ tree f, f ∈ calculate_complexity tree → 1 ≤ f.complexity) ∧
    (∀ items t r f, analyze_directory items t = .ok r → f ∈ r.functions →
      1 ≤ f.complexity) := by
  constructor
  · exact fun tree f hf => calc_complexity_ge_one tree f hf
  · intro items t r f h hf
    obtain ⟨st, hr, hfst, _⟩ := analyze_ok_elim items t r h
    have hinv := runWalk_inv items ⟨[], 0, 0⟩ st init_inv hr
    rw [hfst] at hf
    exact hinv.2.2 f hf

/-- Witness for C4 at concrete inputs: a record of the analyzer and a
record surviving aggregation. -/
theorem all_records_ge_one_witness :
    ({ name := "f", file := "", line := 2, complexity := 1 } : FunctionComplexity)
        ∈ calculate_complexity simpleTree ∧
    1 ≤ ({ name := "f", file := "", line := 2, complexity := 1 } :
        FunctionComplexity).complexity ∧
    analyze_directory exItems 5 = .ok exResult ∧
    ({ name := "complex_function", file := "d/complex.py", line := 5, complexity := 9 } :
        FunctionComplexity) ∈ exResult.functions ∧
    1 ≤ ({ name := "complex_function", file := "d/complex.py", line := 5, complexity := 9 } : FunctionComplexity).complexity := by
  have hmem : ({ name := "f", file := "", line := 2, complexity := 1 } :
      FunctionComplexity) ∈ calculate_complexity simpleTree := by
    have hc : calculate_complexity simpleTree =
        [{ name := "f", file := "", line := 2, complexity := 1 }] := rfl
    rw [hc]; exact List.mem_singleton.mpr rfl
  have hmem2 : ({ name := "complex_function", file := "d/complex.py", line := 5, complexity := 9 } : FunctionComplexity) ∈ exResult.functions := by
    show _ ∈ exFunctions
    exact List.mem_cons.mpr (Or.inr (List.mem_singleton.mpr rfl))
  exact ⟨hmem, all_records_ge_one.1 simpleTree _ hmem, exResult_eq, hmem2,
    all_records_ge_one.2 exItems 5 exResult _ exResult_eq hmem2⟩

/-! ## C3 -/

/-- C3: for a successful run whose summary is present,
`total_functions` is the number of records, `max_complexity` is the
maximum complexity over the records, `mean_complexity` is the sum of
complexities divided by the count, and `functions_above_threshold`
counts records with complexity strictly greater than the threshold. -/
theorem summary_invariants (items : List WalkItem) (t : Nat)
    (r : AnalysisResult) (s : Summary)
    (h : analyze_directory items t = .ok r) (hs : r.summary = some s) :
    s.total_functions = r.functions.length ∧
    s.max_complexity ∈ r.functions.map (fun f => f.complexity) ∧
    (∀ f ∈ r.functions, f.complexity ≤ s.max_complexity) ∧
    s.mean_complexity =
      (((r.functions.map (fun f => f.complexity)).sum : Nat) : Rat) /
        ((r.functions.length : Nat) : Rat) ∧
    s.functions_above_threshold =
      (r.functions.filter (fun f => t < f.complexity)).length := by
  obtain ⟨st, hr, hfst, hsum⟩ := analyze_ok_elim items t r h
  have hinv := runWalk_inv items ⟨[], 0, 0⟩ st init_inv hr
  rw [hsum] at hs
  by_cases hemp : st.all.isEmpty
  · rw [if_pos hemp] at hs; cases hs
  · rw [if_neg hemp] at hs
    cases hs
    rw [hfst]
    obtain ⟨g, hg⟩ : ∃ g, g ∈ st.all := by
      cases hall : st.all with
      | nil => rw [hall] at hemp; exact absurd rfl hemp
      | cons g gs => exact ⟨g, hall ▸ List.mem_cons_self g gs⟩
    refine ⟨rfl, ?_, ?_, ?_, rfl⟩
    · show st.maxc ∈ st.all.map (fun f => f.complexity)
      rcases foldl_max_eq_or_mem (st.all.map (fun f => f.complexity)) 0 with h0 | hin
      · exfalso
        have hle : g.complexity ≤ (st.all.map (fun f => f.complexity)).foldl Nat.max 0 :=
          mem_le_foldl_max _ 0 _ (List.mem_map_of_mem _ hg)
        have hge := hinv.2.2 g hg
        rw [h0] at hle
        omega
      · rw [hinv.2.1]; exact hin
    · intro f hf
      show f.complexity ≤ st.maxc
      rw [hinv.2.1]
      exact mem_le_foldl_max _ 0 _ (List.mem_map_of_mem _ hf)
    · show (st.total : Rat) / (st.all.length : Rat) = _
      rw [hinv.1]

/-- Witness for C3 at the concrete two-file run. -/
theorem summary_invariants_witness :
    analyze_directory exItems 5 = .ok exResult ∧
    exResult.summary = some
      { mean_complexity := ((10 : Nat) : Rat) / ((2 : Nat) : Rat)
      , max_complexity := 9, total_functions := 2, functions_above_threshold := 1 } ∧
    (2 = exResult.functions.length ∧
      9 ∈ exResult.functions.map (fun f => f.complexity) ∧
      (∀ f ∈ exResult.functions, f.complexity ≤ 9) ∧
      ((10 : Nat) : Rat) / ((2 : Nat) : Rat) =
        (((exResult.functions.map (fun f => f.complexity)).sum : Nat) : Rat) /
          ((exResult.functions.length : Nat) : Rat) ∧
      1 = (exResult.functions.filter (fun f => 5 < f.complexity)).length) := by
  exact ⟨exResult_eq, rfl, summary_invariants exItems 5 exResult _ exResult_eq rfl⟩

/-! ## C7 -/

theorem runWalk_all_eq (items : List WalkItem) (st st1 : WalkState)
    (hr : runWalk st items = .ok st1)
    (hnone : ∀ p c, WalkItem.ok p c ∈ items → extension p = some "py" →
      excludedPath p = false → ∃ tree, c = .ok tree ∧ calculate_complexity tree = []) :
    st1.all = st.all := by
  induction items generalizing st with
  | nil => cases hr; rfl
  | cons i is ih =>
      rw [runWalk_cons] at hr
      have hnone2 : ∀ p c, WalkItem.ok p c ∈ is → extension p = some "py" →
          excludedPath p = false →
          ∃ tree, c = .ok tree ∧ calculate_complexity tree = [] :=
        fun p c hm => hnone p c (List.mem_cons.mpr (Or.inr hm))
      cases i with
      | err =>
          rw [processItem_err_item] at hr
          exact ih st hr hnone2
      | ok p c =>
          by_cases hext : extension p = some "py"
          · by_cases hexc : excludedPath p = true
            · rw [processItem_skip_excl st p c hext hexc] at hr
              exact ih st hr hnone2
            · have hexc2 : excludedPath p = false := by
                cases hb : excludedPath p
                · rfl
                · exact absurd hb hexc
              obtain ⟨tree, hc, hcalc⟩ :=
                hnone p c (List.mem_cons.mpr (Or.inl rfl)) hext hexc2
              subst hc
              rw [processItem_file st p tree hext hexc2] at hr
              have hstep := ih (stepFile st p tree) hr hnone2
              rw [hstep]
              show st.all ++ stampedRecords p tree = st.all
              rw [stampedRecords, hcalc]
              exact List.append_nil st.all
          · rw [processItem_skip_ext st p c hext] at hr
            exact ih st hr hnone2

/-- C7: a successful run's summary is present exactly when at least
one function was found; and when no eligible file contributes any
function (no eligible files at all, or none containing a function
definition), the result has an empty `functions` list and no summary. -/
theorem empty_run_result (items : List WalkItem) (t : Nat) (r : AnalysisResult)
    (h : analyze_directory items t = .ok r) :
    (r.summary.isSome ↔ r.functions ≠ []) ∧
    ((∀ p c, WalkItem.ok p c ∈ items → extension p = some "py" →
        excludedPath p = false →
        ∃ tree, c = .ok tree ∧ calculate_complexity tree = []) →
      r.functions = [] ∧ r.summary = none) := by
  obtain ⟨st, hr, hfst, hsum⟩ := analyze_ok_elim items t r h
  constructor
  · by_cases hemp : st.all.isEmpty
    · rw [hsum, if_pos hemp, hfst]
      have : st.all = [] := by
        cases hall : st.all with
        | nil => rfl
        | cons g gs => rw [hall] at hemp; cases hemp
      simp [this]
    · rw [hsum, if_neg hemp, hfst]
      have : st.all ≠ [] := by
        intro hall
        rw [hall] at hemp
        exact hemp rfl
      simp [this]
  · intro hnone
    have hall : st.all = [] := by
      have := runWalk_all_eq items ⟨[], 0, 0⟩ st hr hnone
      exact this
    constructor
    · rw [hfst, hall]
    · rw [hsum, hall]
      rfl

/-- Module with no function definitions. -/
def emptyModuleTree : Node :=
  ndN "module" [ndN "comment" []]

/-- Witness for C7: a walker error, a non-matching file, and an
eligible file with no functions yield an empty result with no
summary. -/
theorem empty_run_result_witness :
    analyze_directory
        [WalkItem.err, WalkItem.ok "d/readme.md" (Except.error "unreadable"),
         WalkItem.ok "d/empty.py" (Except.ok emptyModuleTree)] 10 =
      .ok { functions := [], summary := none } ∧
    (({ functions := [], summary := none } : AnalysisResult).summary.isSome ↔
      ({ functions := [], summary := none } : AnalysisResult).functions ≠ []) ∧
    ({ functions := [], summary := none } : AnalysisResult).functions = [] ∧
    ({ functions := [], summary := none } : AnalysisResult).summary = none := by
  have h : analyze_directory
      [WalkItem.err, WalkItem.ok "d/readme.md" (Except.error "unreadable"),
       WalkItem.ok "d/empty.py" (Except.ok emptyModuleTree)] 10 =
      .ok { functions := [], summary := none } := rfl
  have hthm := empty_run_result _ 10 _ h
  have hnone : ∀ p c, WalkItem.ok p c ∈
      [WalkItem.err, WalkItem.ok "d/readme.md" (Except.error "unreadable"),
       WalkItem.ok "d/empty.py" (Except.ok emptyModuleTree)] →
      extension p = some "py" → excludedPath p = false →
      ∃ tree, c = .ok tree ∧ calculate_complexity tree = [] := by
    intro p c hm hext hexc
    rcases List.mem_cons.mp hm with h1 | hm
    · cases h1
    rcases List.mem_cons.mp hm with h1 | hm
    · cases h1
      exact absurd hext (by decide)
    rcases List.mem_cons.mp hm with h1 | hm
    · cases h1
      exact ⟨emptyModuleTree, rfl, rfl⟩
    · cases hm
  have hconc := hthm.2 hnone
  exact ⟨h, hthm.1, hconc.1, hconc.2⟩

/-! ## C5 -/

/-- C5: when an eligible file's read-or-parse outcome is an error, the
whole run aborts with that error the moment the file is reached, and
no `AnalysisResult` is produced. -/
theorem abort_on_file_error (pre post : List WalkItem) (p e : String) (t : Nat)
    (st1 : WalkState)
    (hext : extension p = some "py") (hexc : excludedPath p = false)
    (hpre : runWalk ⟨[], 0, 0⟩ pre = .ok st1) :
    analyze_directory (pre ++ WalkItem.ok p (.error e) :: post) t = .error e ∧
    ∀ r, analyze_directory (pre ++ WalkItem.ok p (.error e) :: post) t ≠ .ok r := by
  have hw : runWalk (⟨[], 0, 0⟩ : WalkState)
      (pre ++ WalkItem.ok p (.error e) :: post) = .error e := by
    rw [runWalk_append, hpre]
    show runWalk st1 (WalkItem.ok p (.error e) :: post) = .error e
    rw [runWalk_cons, processItem_read_error st1 p e hext hexc]
  have h1 : analyze_directory (pre ++ WalkItem.ok p (.error e) :: post) t = .error e := by
    unfold analyze_directory
    rw [hw]
  exact ⟨h1, fun r hcontra => by rw [h1] at hcontra; cases hcontra⟩

/-- Witness for C5: a single unreadable eligible file aborts the run. -/
theorem abort_on_file_error_witness :
    analyze_directory [WalkItem.ok "d/bad.py" (.error "permission denied")] 7 =
      .error "permission denied" ∧
    analyze_directory [WalkItem.ok "d/bad.py" (.error "permission denied")] 7 ≠
      .ok { functions := [], summary := none } := by
  have h := abort_on_file_error [] [] "d/bad.py" "permission denied" 7
    ⟨[], 0, 0⟩ (by decide) (by decide) rfl
  exact ⟨h.1, h.2 { functions := [], summary := none }⟩

/-! ## C6 -/

/-- C6: a file whose path contains an excluded segment (`__pycache__`
or `venv`, matched as a substring) is never read or analyzed: the run
behaves exactly as if the item were absent, for any content, even with
a matching `.py` extension. -/
theorem excluded_paths_never_analyzed (pre post : List WalkItem) (p : String)
    (c : Except String Node) (t : Nat) (hexc : excludedPath p = true) :
    analyze_directory (pre ++ WalkItem.ok p c :: post) t =
      analyze_directory (pre ++ post) t := by
  apply analyze_congr
  rw [runWalk_append, runWalk_append]
  cases runWalk (⟨[], 0, 0⟩ : WalkState) pre with
  | error e => rfl
  | ok st1 =>
      show runWalk st1 (WalkItem.ok p c :: post) = runWalk st1 post
      rw [runWalk_cons]
      by_cases hext : extension p = some "py"
      · rw [processItem_skip_excl st1 p c hext hexc]
      · rw [processItem_skip_ext st1 p c hext]

/-- Witness for C6: a `.py` file under `venv` (with unreadable
content, showing it is never read) changes nothing. -/
theorem excluded_paths_never_analyzed_witness :
    excludedPath "d/venv/lib.py" = true ∧
    analyze_directory
        (exItems ++ WalkItem.ok "d/venv/lib.py" (.error "never read") :: []) 5 =
      analyze_directory (exItems ++ []) 5 := by
  exact ⟨by decide,
    excluded_paths_never_analyzed exItems [] "d/venv/lib.py"
      (.error "never read") 5 (by decide)⟩

/-! ## C10 -/

/-- C10 (implicit): an error yielded by the directory walker itself is
silently discarded and the walk continues: the run behaves exactly as
if the errored entry were absent. -/
theorem walker_errors_discarded (pre post : List WalkItem) (t : Nat) :
    analyze_directory (pre ++ WalkItem.err :: post) t =
      analyze_directory (pre ++ post) t := by
  apply analyze_congr
  rw [runWalk_append, runWalk_append]
  cases runWalk (⟨[], 0, 0⟩ : WalkState) pre with
  | error e => rfl
  | ok st1 =>
      show runWalk st1 (WalkItem.err :: post) = runWalk st1 post
      rw [runWalk_cons, processItem_err_item]

/-! ## C8 -/

/-- C8: the output selector accepts exactly `table` and `json`: a
successful `main` implies the selector was one of the two (and exits
zero), and any other selector value makes the run fail, exiting
non-zero. -/
theorem output_format_selector (items : List WalkItem) (t : Nat) (o : String) :
    (∀ r, mainRun items t o = .ok r → (o = "table" ∨ o = "json")) ∧
    ((o ≠ "table" ∧ o ≠ "json") → exitCode (mainRun items t o) ≠ 0 ∧
      (∀ r, analyze_directory items t = .ok r →
        mainRun items t o = .error "Invalid output format")) ∧
    (∀ r, mainRun items t o = .ok r → exitCode (mainRun items t o) = 0) := by
  refine ⟨?_, ?_, ?_⟩
  · intro r h
    by_cases h1 : o = "table"
    · exact Or.inl h1
    by_cases h2 : o = "json"
    · exact Or.inr h2
    exfalso
    unfold mainRun at h
    cases ha : analyze_directory items t with
    | error e => rw [ha] at h; cases h
    | ok result =>
        rw [ha] at h
        replace h : (if o = "table" then Except.ok result
            else if o = "json" then Except.ok result
            else Except.error "Invalid output format") = Except.ok r := h
        rw [if_neg h1, if_neg h2] at h
        cases h
  · rintro ⟨h1, h2⟩
    have hmain : ∀ result, analyze_directory items t = .ok result →
        mainRun items t o = .error "Invalid output format" := by
      intro result ha
      unfold mainRun
      rw [ha]
      show (if o = "table" then Except.ok result
          else if o = "json" then Except.ok result
          else Except.error "Invalid output format") = Except.error "Invalid output format"
      rw [if_neg h1, if_neg h2]
    constructor
    · cases ha : analyze_directory items t with
      | error e =>
          have : mainRun items t o = .error e := by unfold mainRun; rw [ha]
          rw [this]
          intro hcontra
          cases hcontra
      | ok result =>
          rw [hmain result ha]
          intro hcontra
          cases hcontra
    · exact hmain
  · intro r h
    rw [h]
    rfl

/-- Witness for C8: the selector `xml` fails on a run whose analysis
succeeds, while `json` succeeds and exits zero. -/
theorem output_format_selector_witness :
    (exitCode (mainRun exItems 5 "xml") ≠ 0 ∧
      (∀ r, analyze_directory exItems 5 = .ok r →
        mainRun exItems 5 "xml" = .error "Invalid output format")) ∧
    mainRun exItems 5 "json" = .ok exResult ∧
    exitCode (mainRun exItems 5 "json") = 0 := by
  have hok : mainRun exItems 5 "json" = .ok exResult := by
    unfold mainRun
    rw [exResult_eq]
    rfl
  exact ⟨(output_format_selector exItems 5 "xml").2.1 ⟨by decide, by decide⟩,
    hok, (output_format_selector exItems 5 "json").2.2 exResult hok⟩
